import Mathlib

/-!  Verification of the terminal session engine of this repository
(`term66.py`, with `term3.py` for the earlier SGR parameter loop).

The Python source is embedded shallowly:

* `QColor` values become RGB triples (`Color`); the module-level palette
  `ANSI_SGR_CODES_TO_COLORS` becomes `ansiSgrCodesToColors`.
* `QTextCharFormat` (the fields the engine touches) becomes `StyleState`;
  the widget font becomes `FontConfig`.
* The SGR parameter `while` loop of `append_ansi_text` becomes
  `sgr_param_loop` (term66) and `sgr_param_loop_t3` (term3).  Python
  `int(...)` on an SGR token is `parseIntOpt`; SGR tokens drawn from the
  regex class `[\d;?]` are digit or question-mark strings, on which
  `parseIntOpt` agrees with Python `int` (success exactly on nonempty
  all-digit strings).  term3 calls `int` on the parameter after 38/48
  outside any `try`, so its loop returns `Except`, with `.error` marking
  an uncaught `ValueError`; in term66 every `int` call is guarded, so its
  loop is total.
* `time.time()` timestamps become rationals.
* Writes to the child process and appended diagnostics are returned
  explicitly instead of performed.
-/

/-- An RGB color; stands for the `QColor` values the source constructs. -/
structure Color where
  r : Nat
  g : Nat
  b : Nat
deriving DecidableEq

/-- `DEFAULT_FG_COLOR = QColor("white")`. -/
def DEFAULT_FG_COLOR : Color := ⟨255, 255, 255⟩

/-- `DEFAULT_BG_COLOR = QColor("black")`. -/
def DEFAULT_BG_COLOR : Color := ⟨0, 0, 0⟩

/-- The module-level dict `ANSI_SGR_CODES_TO_COLORS` (identical in
term66.py and term3.py), as a partial map from SGR code to color. -/
def ansiSgrCodesToColors : Nat → Option Color
  | 30 => some ⟨0x00, 0x00, 0x00⟩
  | 31 => some ⟨0xCD, 0x00, 0x00⟩
  | 32 => some ⟨0x00, 0xCD, 0x00⟩
  | 33 => some ⟨0xCD, 0xCD, 0x00⟩
  | 34 => some ⟨0x00, 0x00, 0xEE⟩
  | 35 => some ⟨0xCD, 0x00, 0xCD⟩
  | 36 => some ⟨0x00, 0xCD, 0xCD⟩
  | 37 => some ⟨0xE5, 0xE5, 0xE5⟩
  | 39 => some DEFAULT_FG_COLOR
  | 40 => some ⟨0x00, 0x00, 0x00⟩
  | 41 => some ⟨0xCD, 0x00, 0x00⟩
  | 42 => some ⟨0x00, 0xCD, 0x00⟩
  | 43 => some ⟨0xCD, 0xCD, 0x00⟩
  | 44 => some ⟨0x00, 0x00, 0xEE⟩
  | 45 => some ⟨0xCD, 0x00, 0xCD⟩
  | 46 => some ⟨0x00, 0xCD, 0xCD⟩
  | 47 => some ⟨0xE5, 0xE5, 0xE5⟩
  | 49 => some DEFAULT_BG_COLOR
  | 90 => some ⟨0x7F, 0x7F, 0x7F⟩
  | 91 => some ⟨0xFF, 0x00, 0x00⟩
  | 92 => some ⟨0x00, 0x80, 0x00⟩
  | 93 => some ⟨0xFF, 0xFF, 0x00⟩
  | 94 => some ⟨0x00, 0x00, 0xFF⟩
  | 95 => some ⟨0xFF, 0x00, 0xFF⟩
  | 96 => some ⟨0x00, 0xFF, 0xFF⟩
  | 97 => some ⟨0xFF, 0xFF, 0xFF⟩
  | 100 => some ⟨0x7F, 0x7F, 0x7F⟩
  | 101 => some ⟨0xFF, 0x00, 0x00⟩
  | 102 => some ⟨0x00, 0x80, 0x00⟩
  | 103 => some ⟨0xFF, 0xFF, 0x00⟩
  | 104 => some ⟨0x00, 0x00, 0xFF⟩
  | 105 => some ⟨0xFF, 0x00, 0xFF⟩
  | 106 => some ⟨0x00, 0xFF, 0xFF⟩
  | 107 => some ⟨0xFF, 0xFF, 0xFF⟩
  | _ => none

/-- `QFont.Weight.Normal`. -/
def weightNormal : Nat := 400

/-- `QFont.Weight.Bold`. -/
def weightBold : Nat := 700

/-- The parts of the widget's `current_font` that
`_reset_char_format_to_default` reads (term66.py). -/
structure FontConfig where
  weight : Nat
  italic : Bool
  underline : Bool
deriving DecidableEq

/-- The widget font built from `DEFAULT_FONT = QFont("Courier New", 10)`:
normal weight, not italic, not underlined. -/
def defaultFontConfig : FontConfig := ⟨weightNormal, false, false⟩

/-- The fields of the widget's `current_format` (`QTextCharFormat`) that
the SGR interpreter mutates. -/
structure StyleState where
  foreground : Color
  background : Color
  fontWeight : Nat
  fontItalic : Bool
  fontUnderline : Bool
deriving DecidableEq

/-- `TerminalWidget._reset_char_format_to_default` of term66.py: sets the
default colors, copies weight/italic/underline from the current font, then
explicitly overwrites those three with Normal/False/False. -/
def reset_char_format_to_default (font : FontConfig) (f0 : StyleState) : StyleState :=
  let f1 := { f0 with foreground := DEFAULT_FG_COLOR }
  let f2 := { f1 with background := DEFAULT_BG_COLOR }
  let f3 := { f2 with fontWeight := font.weight }
  let f4 := { f3 with fontItalic := font.italic }
  let f5 := { f4 with fontUnderline := font.underline }
  let f6 := { f5 with fontWeight := weightNormal }
  let f7 := { f6 with fontItalic := false }
  { f7 with fontUnderline := false }

/-- `TerminalWidget._reset_char_format_to_default` of term3.py: sets the
default colors and Normal/False/False directly. -/
def reset_char_format_to_default_t3 (f0 : StyleState) : StyleState :=
  let f1 := { f0 with foreground := DEFAULT_FG_COLOR }
  let f2 := { f1 with background := DEFAULT_BG_COLOR }
  let f3 := { f2 with fontWeight := weightNormal }
  let f4 := { f3 with fontItalic := false }
  { f4 with fontUnderline := false }

/-- The documented default style: default foreground and background
colors, bold off, italic off, underline off. -/
def defaultStyleState : StyleState :=
  ⟨DEFAULT_FG_COLOR, DEFAULT_BG_COLOR, weightNormal, false, false⟩

/-- `TerminalWidget._apply_sgr_code` of term66.py, one numeric SGR code
applied to the current format (the elif chain in source order). -/
def apply_sgr_code (font : FontConfig) (code : Nat) (st : StyleState) : StyleState :=
  if code = 0 then reset_char_format_to_default font st
  else if code = 1 then { st with fontWeight := weightBold }
  else if code = 3 then { st with fontItalic := true }
  else if code = 4 then { st with fontUnderline := true }
  else
    match ansiSgrCodesToColors code with
    | some color =>
      if (30 ≤ code ∧ code ≤ 37) ∨ (90 ≤ code ∧ code ≤ 97) ∨ code = 39 then
        { st with foreground := color }
      else if (40 ≤ code ∧ code ≤ 47) ∨ (100 ≤ code ∧ code ≤ 107) ∨ code = 49 then
        { st with background := color }
      else st
    | none =>
      if code = 22 then { st with fontWeight := weightNormal }
      else if code = 23 then { st with fontItalic := false }
      else if code = 24 then { st with fontUnderline := false }
      else st

/-- `TerminalWidget._apply_sgr_code` of term3.py (no 22/23/24 handling;
38/48 fall through as no-ops). -/
def apply_sgr_code_t3 (code : Nat) (st : StyleState) : StyleState :=
  if code = 0 then reset_char_format_to_default_t3 st
  else if code = 1 then { st with fontWeight := weightBold }
  else if code = 3 then { st with fontItalic := true }
  else if code = 4 then { st with fontUnderline := true }
  else
    match ansiSgrCodesToColors code with
    | some color =>
      if (30 ≤ code ∧ code ≤ 37) ∨ (90 ≤ code ∧ code ≤ 97) ∨ code = 39 then
        { st with foreground := color }
      else if (40 ≤ code ∧ code ≤ 47) ∨ (100 ≤ code ∧ code ≤ 107) ∨ code = 49 then
        { st with background := color }
      else st
    | none => st

/-- Python `int(token)` on an SGR token.  Tokens come from splitting a
match of the regex class `[\d;?]*` on `;`, so they are strings of digits
and question marks; `int` succeeds exactly on the nonempty all-digit
ones. -/
def parseIntOpt (s : String) : Option Nat :=
  if s.data ≠ [] ∧ s.data.all (fun c => c.isDigit) then
    some (s.data.foldl (fun a c => a * 10 + (c.toNat - 48)) 0)
  else none

/-- Python `str.split(';')` on the character list: split at every
semicolon, keeping empty fields. -/
def splitSemis : List Char → List (List Char)
  | [] => [[]]
  | c :: rest =>
    if c = ';' then [] :: splitSemis rest
    else
      match splitSemis rest with
      | h :: t => (c :: h) :: t
      | [] => [[c]]

/-- `parts = sgr.split(';') if sgr else ['0']` from `append_ansi_text`. -/
def sgrParts (sgr : String) : List String :=
  if sgr = "" then ["0"] else (splitSemis sgr.data).map String.mk

/-- Fuel-indexed form of the SGR parameter `while` loop inside
`append_ansi_text` of term66.py.  The loop advances `idx` by at least
one position per iteration, so any fuel at least the list length gives
the loop's value (`sgrLoopFuel_congr`); `sgr_param_loop` below fixes the
canonical fuel. -/
def sgrLoopFuel (font : FontConfig) : Nat → List String → StyleState → StyleState
  | 0, _, st => st
  | fuel + 1, l, st =>
    match l with
    | [] => st
    | p :: rest =>
      match (if p = "" then some 0 else parseIntOpt p) with
      | none => sgrLoopFuel font fuel rest st
      | some code =>
        if code = 38 ∨ code = 48 then
          match rest with
          | [] => st
          | m :: rest2 =>
            match parseIntOpt m with
            | none => sgrLoopFuel font fuel rest st
            | some mode =>
              if mode = 5 then
                match rest2 with
                | _i :: rest3 => sgrLoopFuel font fuel rest3 st
                | [] => sgrLoopFuel font fuel rest st
              else if mode = 2 then
                match rest2 with
                | _r :: _g :: _b :: rest5 => sgrLoopFuel font fuel rest5 st
                | _ => sgrLoopFuel font fuel rest st
              else sgrLoopFuel font fuel rest2 st
        else sgrLoopFuel font fuel rest (apply_sgr_code font code st)

/-- The SGR parameter `while` loop inside `append_ansi_text` of
term66.py, acting on the suffix of `parts` starting at `idx`.  Empty
tokens mean code 0; unparsable tokens are skipped (`except ValueError:
continue`); codes 38/48 parse the following color-mode parameter inside
a `try` (a failure is swallowed by `except ValueError: pass`) and skip
the sub-parameters; everything else goes through `_apply_sgr_code`. -/
def sgr_param_loop (font : FontConfig) (l : List String) (st : StyleState) : StyleState :=
  sgrLoopFuel font l.length l st

/-- Fuel-indexed form of the SGR parameter `while` loop inside
`append_ansi_text` of term3.py.  Identical in shape to the term66 loop
except that `int(parts[idx+1])` after a 38/48 code runs outside any
`try`: a non-numeric parameter there raises an uncaught `ValueError`,
modelled as `.error ()`.  The unknown color-mode case does not skip the
mode parameter either. -/
def sgrLoopFuelT3 : Nat → List String → StyleState → Except Unit StyleState
  | 0, _, st => .ok st
  | fuel + 1, l, st =>
    match l with
    | [] => .ok st
    | p :: rest =>
      match (if p = "" then some 0 else parseIntOpt p) with
      | none => sgrLoopFuelT3 fuel rest st
      | some code =>
        if code = 38 ∨ code = 48 then
          match rest with
          | [] => .ok st
          | m :: rest2 =>
            match parseIntOpt m with
            | none => .error ()
            | some mode =>
              if mode = 5 then
                match rest2 with
                | _i :: rest3 => sgrLoopFuelT3 fuel rest3 st
                | [] => sgrLoopFuelT3 fuel rest st
              else if mode = 2 then
                match rest2 with
                | _r :: _g :: _b :: rest5 => sgrLoopFuelT3 fuel rest5 st
                | _ => sgrLoopFuelT3 fuel rest st
              else sgrLoopFuelT3 fuel rest st
        else sgrLoopFuelT3 fuel rest (apply_sgr_code_t3 code st)

/-- The term3.py SGR parameter loop at its canonical fuel. -/
def sgr_param_loop_t3 (l : List String) (st : StyleState) : Except Unit StyleState :=
  sgrLoopFuelT3 l.length l st

/-- A token parses as an ordinary standalone SGR code: nonempty, numeric,
and not the extended-color introducers 38/48. -/
def simpleTok (s : String) : Bool :=
  match parseIntOpt s with
  | some n => !(n == 38) && !(n == 48)
  | none => false

/-- The numeric value of a token (0 for unparsable ones; only used on
tokens where `parseIntOpt` succeeds). -/
def tokVal (s : String) : Nat := (parseIntOpt s).getD 0

/-- Fold `_apply_sgr_code` left to right over a token list's values. -/
def applyAll (font : FontConfig) (l : List String) (st : StyleState) : StyleState :=
  l.foldl (fun a s => apply_sgr_code font (tokVal s) a) st

/-! ## Process supervision (term66.py `start_process`) -/

/-- The per-widget supervision state read and written by
`start_process`: `process_running`, `restart_count`, `last_started`.
Timestamps (`time.time()`) are modelled as rationals. -/
structure SessionState where
  process_running : Bool
  restart_count : Nat
  last_started : ℚ
deriving DecidableEq

/-- What a call to `start_process` does after its guards. -/
inductive StartOutcome where
  /-- `process_running` was already true: log a warning and return. -/
  | alreadyRunning
  /-- The restart throttle fired (`restart_count > 3` after a rapid
  attempt): print the "Too many restarts" diagnostic and return without
  spawning. -/
  | throttled
  /-- The throttle admitted the attempt: fall through to shell discovery
  and `QProcess.start`. -/
  | proceed
deriving DecidableEq

/-- `TerminalWidget.start_process` of term66.py up to the spawn decision:
the already-running guard and the restart throttle
(`if 0 < (now - self.last_started) < 2`).  The refused attempt keeps its
incremented counter and does not update `last_started` (the `return`
precedes `self.last_started = now`). -/
def start_process (st : SessionState) (now : ℚ) : SessionState × StartOutcome :=
  if st.process_running then (st, .alreadyRunning)
  else if 0 < now - st.last_started ∧ now - st.last_started < 2 then
    let rc := st.restart_count + 1
    if rc > 3 then ({ st with restart_count := rc }, .throttled)
    else ({ st with restart_count := rc, last_started := now }, .proceed)
  else ({ st with restart_count := 0, last_started := now }, .proceed)

/-! ## Input line discipline: submit and programmatic send -/

/-- Result of an attempted write to the child process: the bytes written
to its stdin (if any) and the diagnostic appended to the display (if
any). -/
structure WriteResult where
  written : Option String
  diag : Option String
deriving DecidableEq

/-- Python `txt.rstrip('\n')`. -/
def rstripNewlines (s : String) : String :=
  String.mk ((s.data.reverse.dropWhile (fun c => c = '\n')).reverse)

/-- The diagnostic `append_ansi_text` receives in the Return branch when
the shell is not running. -/
def shellNotRunningDiag : String := "\x1b[31mShell not running.\x1b[0m\n"

/-- The Return/Enter branch of `TerminalWidget.keyPressEvent` of
term66.py: slice the document text from `input_start_pos`, strip
trailing newlines, and either write `cmd + "\n"` to the child process
(running) or append a diagnostic (not running). -/
def submitCommand (running : Bool) (docText : String) (input_start_pos : Nat) : WriteResult :=
  let txt_to_send := String.mk (docText.data.drop input_start_pos)
  let cmd := rstripNewlines txt_to_send
  if running then ⟨some (cmd ++ "\n"), none⟩
  else ⟨none, some shellNotRunningDiag⟩

/-- The diagnostic `send_command` appends when the process is not
running (the f-string with the terminal id interpolated). -/
def notRunningDiag (terminal_id : String) : String :=
  "\x1b[31m[" ++ terminal_id ++ "] ❌ Not running. Cannot send command.\x1b[0m\n"

/-- `TerminalWidget.send_command` of term66.py: write
`cmd + ('\n' if append_enter else '')` to the child if running,
otherwise append the not-running diagnostic. -/
def send_command (running : Bool) (terminal_id : String) (cmd : String)
    (append_enter : Bool) : WriteResult :=
  if running then ⟨some (cmd ++ (if append_enter then "\n" else "")), none⟩
  else ⟨none, some (notRunningDiag terminal_id)⟩

/-! ## Lemmas about the SGR parameter loop -/

theorem parseIntOpt_empty : parseIntOpt "" = none := rfl

theorem parseIntOpt_ne_empty {s : String} {n : Nat} (h : parseIntOpt s = some n) :
    s ≠ "" := by
  intro he
  rw [he, parseIntOpt_empty] at h
  exact Option.noConfusion h

/-- Any fuel at least the token-list length computes the term66 SGR loop. -/
theorem sgrLoopFuel_congr (font : FontConfig) :
    ∀ (n m : Nat) (l : List String) (st : StyleState),
      l.length ≤ n → l.length ≤ m →
      sgrLoopFuel font n l st = sgrLoopFuel font m l st := by
  intro n
  induction n with
  | zero =>
    intro m l st h1 _
    have hl : l = [] := List.eq_nil_of_length_eq_zero (Nat.le_zero.mp h1)
    subst hl
    cases m <;> rfl
  | succ n ih =>
    intro m l st h1 h2
    cases l with
    | nil => cases m <;> rfl
    | cons p rest =>
      cases m with
      | zero => simp at h2
      | succ m =>
        have hr1 : rest.length ≤ n := by simp at h1; omega
        have hr2 : rest.length ≤ m := by simp at h2; omega
        simp only [sgrLoopFuel]
        cases hp : (if p = "" then some 0 else parseIntOpt p) with
        | none => exact ih m rest st hr1 hr2
        | some code =>
          by_cases hc : code = 38 ∨ code = 48
          · simp only [if_pos hc]
            cases rest with
            | nil => rfl
            | cons q rest2 =>
              dsimp only
              have hq1 : rest2.length ≤ n := by simp at hr1; omega
              have hq2 : rest2.length ≤ m := by simp at hr2; omega
              cases hq : parseIntOpt q with
              | none => exact ih m (q :: rest2) st hr1 hr2
              | some mode =>
                by_cases h5 : mode = 5
                · simp only [if_pos h5]
                  cases rest2 with
                  | cons i rest3 =>
                    dsimp only
                    have h31 : rest3.length ≤ n := by simp at hq1; omega
                    have h32 : rest3.length ≤ m := by simp at hq2; omega
                    exact ih m rest3 st h31 h32
                  | nil => exact ih m [q] st hr1 hr2
                · simp only [if_neg h5]
                  by_cases h2m : mode = 2
                  · simp only [if_pos h2m]
                    cases rest2 with
                    | nil => exact ih m (q :: []) st hr1 hr2
                    | cons a rest3 =>
                      cases rest3 with
                      | nil => exact ih m (q :: [a]) st hr1 hr2
                      | cons b rest4 =>
                        cases rest4 with
                        | nil => exact ih m (q :: [a, b]) st hr1 hr2
                        | cons c rest5 =>
                          dsimp only
                          have h51 : rest5.length ≤ n := by simp at hq1; omega
                          have h52 : rest5.length ≤ m := by simp at hq2; omega
                          exact ih m rest5 st h51 h52
                  · simp only [if_neg h2m]
                    exact ih m rest2 st hq1 hq2
          · simp only [if_neg hc]
            exact ih m rest (apply_sgr_code font code st) hr1 hr2

theorem sgr_param_loop_nil (font : FontConfig) (st : StyleState) :
    sgr_param_loop font [] st = st := rfl

/-- An unparsable, nonempty token is skipped by the term66 loop. -/
theorem sgr_param_loop_skip (font : FontConfig) {bad : String}
    (hne : bad ≠ "") (hbad : parseIntOpt bad = none)
    (rest : List String) (st : StyleState) :
    sgr_param_loop font (bad :: rest) st = sgr_param_loop font rest st := by
  unfold sgr_param_loop
  simp only [List.length_cons, sgrLoopFuel, if_neg hne, hbad]

/-- A nonempty numeric token other than 38/48 is applied via
`_apply_sgr_code` and the loop proceeds. -/
theorem sgr_param_loop_simple (font : FontConfig) {s : String} {n : Nat}
    (hs : parseIntOpt s = some n) (h38 : n ≠ 38) (h48 : n ≠ 48)
    (rest : List String) (st : StyleState) :
    sgr_param_loop font (s :: rest) st
      = sgr_param_loop font rest (apply_sgr_code font n st) := by
  unfold sgr_param_loop
  simp only [List.length_cons, sgrLoopFuel, if_neg (parseIntOpt_ne_empty hs), hs]
  rw [if_neg]
  intro h
  rcases h with h | h
  · exact h38 h
  · exact h48 h

/-- A 38/48 code whose color mode parses to 5 consumes exactly the mode
parameter and one further sub-parameter. -/
theorem sgr_param_loop_ext5 (font : FontConfig) {ext m5 : String} {c : Nat}
    (hext : parseIntOpt ext = some c) (hc : c = 38 ∨ c = 48)
    (h5 : parseIntOpt m5 = some 5)
    (i : String) (rest : List String) (st : StyleState) :
    sgr_param_loop font (ext :: m5 :: i :: rest) st = sgr_param_loop font rest st := by
  unfold sgr_param_loop
  simp only [List.length_cons, sgrLoopFuel, if_neg (parseIntOpt_ne_empty hext), hext,
    if_pos hc, h5, if_pos rfl]
  exact sgrLoopFuel_congr font (rest.length + 1 + 1) rest.length rest st
    (by omega) (Nat.le_refl _)

/-- A 38/48 code whose color mode parses to 2 consumes exactly the mode
parameter and three further sub-parameters. -/
theorem sgr_param_loop_ext2 (font : FontConfig) {ext m2 : String} {c : Nat}
    (hext : parseIntOpt ext = some c) (hc : c = 38 ∨ c = 48)
    (h2 : parseIntOpt m2 = some 2)
    (r g b : String) (rest : List String) (st : StyleState) :
    sgr_param_loop font (ext :: m2 :: r :: g :: b :: rest) st = sgr_param_loop font rest st := by
  unfold sgr_param_loop
  simp only [List.length_cons, sgrLoopFuel, if_neg (parseIntOpt_ne_empty hext), hext,
    if_pos hc, h2, if_pos rfl]
  exact sgrLoopFuel_congr font (rest.length + 1 + 1 + 1 + 1) rest.length rest st
    (by omega) (Nat.le_refl _)

theorem applyAll_nil (font : FontConfig) (st : StyleState) : applyAll font [] st = st := rfl

theorem applyAll_cons (font : FontConfig) (s : String) (l : List String) (st : StyleState) :
    applyAll font (s :: l) st = applyAll font l (apply_sgr_code font (tokVal s) st) := rfl

/-- Processing a block of ordinary numeric tokens folds
`_apply_sgr_code` over them and continues with the remainder. -/
theorem sgr_param_loop_simple_append (font : FontConfig) :
    ∀ (l rest : List String) (st : StyleState),
      (∀ s ∈ l, simpleTok s = true) →
      sgr_param_loop font (l ++ rest) st = sgr_param_loop font rest (applyAll font l st) := by
  intro l
  induction l with
  | nil => intro rest st _; rfl
  | cons s l ih =>
    intro rest st hall
    have hs := hall s (List.mem_cons_self s l)
    unfold simpleTok at hs
    cases hp : parseIntOpt s with
    | none => rw [hp] at hs; exact absurd hs (by simp)
    | some n =>
      rw [hp] at hs
      have h38 : n ≠ 38 := by
        intro h; subst h; simp at hs
      have h48 : n ≠ 48 := by
        intro h; subst h; simp at hs
      have hv : tokVal s = n := by simp [tokVal, hp]
      rw [List.cons_append, sgr_param_loop_simple font hp h38 h48, applyAll_cons, hv]
      exact ih rest (apply_sgr_code font n st) (fun t ht => hall t (List.mem_cons_of_mem s ht))

/-- A block of ordinary numeric tokens alone is exactly the fold of
`_apply_sgr_code`. -/
theorem sgr_param_loop_simple_eq (font : FontConfig) (l : List String) (st : StyleState)
    (hall : ∀ s ∈ l, simpleTok s = true) :
    sgr_param_loop font l st = applyAll font l st := by
  have := sgr_param_loop_simple_append font l [] st hall
  simpa using this

/-- Auxiliary: after dropping a maximal run of `p`-characters nothing
satisfying `p` remains at the front. -/
theorem takeWhile_after_dropWhile (p : Char → Bool) (l : List Char) :
    (l.dropWhile p).takeWhile p = [] := by
  induction l with
  | nil => rfl
  | cons a l ih =>
    by_cases h : p a
    · simp [List.dropWhile_cons, h, ih]
    · simp [List.dropWhile_cons, h, List.takeWhile_cons, h]

/-! ## Claims about process supervision and line discipline -/

/-- Claim C1: starting from a session whose restart counter was reset by
its previous start attempt, four further start attempts each made less
than 2 time-units after the previous one increment the restart counter
to 1, 2, 3 and 4 in turn; the first three still proceed to spawn, while
the fourth is refused (`RestartThrottled`) without spawning and without
updating `last_started`; and any attempt after a gap of at least 2
time-units resets the counter to zero and proceeds. -/
theorem claim_C1 (t0 t1 t2 t3 t4 : ℚ)
    (h1a : 0 < t1 - t0) (h1b : t1 - t0 < 2)
    (h2a : 0 < t2 - t1) (h2b : t2 - t1 < 2)
    (h3a : 0 < t3 - t2) (h3b : t3 - t2 < 2)
    (h4a : 0 < t4 - t3) (h4b : t4 - t3 < 2) :
    start_process ⟨false, 0, t0⟩ t1 = (⟨false, 1, t1⟩, .proceed)
    ∧ start_process ⟨false, 1, t1⟩ t2 = (⟨false, 2, t2⟩, .proceed)
    ∧ start_process ⟨false, 2, t2⟩ t3 = (⟨false, 3, t3⟩, .proceed)
    ∧ start_process ⟨false, 3, t3⟩ t4 = (⟨false, 4, t3⟩, .throttled)
    ∧ (∀ (s : SessionState) (t : ℚ), s.process_running = false →
        2 ≤ t - s.last_started →
        start_process s t = (⟨false, 0, t⟩, .proceed)) := by
  refine ⟨?_, ?_, ?_, ?_, ?_⟩
  · simp [start_process, h1a, h1b]
  · simp [start_process, h2a, h2b]
  · simp [start_process, h3a, h3b]
  · simp [start_process, h4a, h4b]
  · intro s t hrun hgap
    obtain ⟨pr, rc, ls⟩ := s
    simp only at hrun
    subst hrun
    have hnot : ¬(0 < t - ls ∧ t - ls < 2) := by
      rintro ⟨_, hlt⟩
      simp only at hgap
      linarith
    simp [start_process, hnot]
    intro hlt1 hlt2
    exact absurd ⟨by linarith, hlt2⟩ hnot

/-- Witness for C1 at concrete times 0,1,2,3,4 (all gaps equal to 1). -/
theorem claim_C1_witness :
    start_process ⟨false, 0, 0⟩ 1 = (⟨false, 1, 1⟩, .proceed)
    ∧ start_process ⟨false, 1, 1⟩ 2 = (⟨false, 2, 2⟩, .proceed)
    ∧ start_process ⟨false, 2, 2⟩ 3 = (⟨false, 3, 3⟩, .proceed)
    ∧ start_process ⟨false, 3, 3⟩ 4 = (⟨false, 4, 3⟩, .throttled)
    ∧ (∀ (s : SessionState) (t : ℚ), s.process_running = false →
        2 ≤ t - s.last_started →
        start_process s t = (⟨false, 0, t⟩, .proceed)) :=
  claim_C1 0 1 2 3 4 (by norm_num) (by norm_num) (by norm_num) (by norm_num)
    (by norm_num) (by norm_num) (by norm_num) (by norm_num)

/-- Claim C2, counterexample to the concrete example: with
`input_boundary = 10` and document text `"prompt> ls -la\n"`, the Return
branch sends `" -la\n"` (the slice starts inside `"ls"`), not
`"ls -la\n"`. -/
theorem claim_C2_counterexample :
    (submitCommand true "prompt> ls -la\n" 10).written = some " -la\n"
    ∧ (" -la\n" : String) ≠ "ls -la\n" := by
  exact ⟨rfl, by decide⟩

/-- Claim C2 (amended): on submit with a running process the text from
`input_boundary` to the end is extracted, trailing newlines stripped,
and written with exactly one appended newline (the written bytes end in
exactly one `'\n'`); the concrete example holds at boundary 8, where
`"prompt> ls -la\n"` sends exactly `"ls -la\n"`. -/
theorem claim_C2 :
    (∀ (doc : String) (pos : Nat),
      (submitCommand true doc pos).written
        = some (rstripNewlines (String.mk (doc.data.drop pos)) ++ "\n"))
    ∧ (∀ (doc : String) (pos : Nat) (w : String),
        (submitCommand true doc pos).written = some w →
        (w.data.reverse.takeWhile (fun c => c = '\n')).length = 1)
    ∧ (submitCommand true "prompt> ls -la\n" 8).written = some "ls -la\n" := by
  refine ⟨fun doc pos => rfl, ?_, by decide⟩
  intro doc pos w hw
  have hw2 : rstripNewlines (String.mk (doc.data.drop pos)) ++ "\n" = w := by
    simpa [submitCommand] using hw
  subst hw2
  rw [String.data_append]
  simp only [rstripNewlines]
  rw [List.reverse_append]
  simp only [List.reverse_reverse]
  show (('\n' :: (doc.data.drop pos).reverse.dropWhile (fun c => c = '\n')).takeWhile
    (fun c => c = '\n')).length = 1
  rw [List.takeWhile_cons]
  simp [takeWhile_after_dropWhile]

/-- Witness for C2: submitting `"abc\n\n"` from boundary 0 writes
`"abc\n"`, whose trailing newline run has length exactly one. -/
theorem claim_C2_witness :
    (submitCommand true "abc\n\n" 0).written = some "abc\n"
    ∧ (("abc\n" : String).data.reverse.takeWhile (fun c => c = '\n')).length = 1 :=
  ⟨by decide, claim_C2.2.1 "abc\n\n" 0 "abc\n" (by decide)⟩

/-! ## Claims about the SGR interpreter -/

/-- Claim C3, counterexample: the claim also covers the term3.py
parameter loop (cited in its sources), and there the non-numeric token
`"?"` placed directly after a 38 code is passed to `int()` outside any
`try`, raising an uncaught `ValueError` instead of being skipped. -/
theorem claim_C3_counterexample :
    parseIntOpt "?" = none
    ∧ sgr_param_loop_t3 ["38", "?", "31"] defaultStyleState = .error () :=
  ⟨rfl, rfl⟩

/-- Claim C3 (amended): for the final iteration's parameter loop
(term66.py) the property holds as stated: processing never raises (the
loop is total), a non-numeric token anywhere is skipped, and every
ordinary numeric code before and after it is still applied, in order.
The earlier iteration term3.py instead raises an uncaught `ValueError`
when the non-numeric token directly follows a 38/48 code. -/
theorem claim_C3 (font : FontConfig) (st : StyleState) (pre post : List String)
    (bad : String)
    (hpre : ∀ s ∈ pre, simpleTok s = true) (hpost : ∀ s ∈ post, simpleTok s = true)
    (hne : bad ≠ "") (hbad : parseIntOpt bad = none) :
    sgr_param_loop font (pre ++ bad :: post) st = applyAll font (pre ++ post) st := by
  rw [sgr_param_loop_simple_append font pre _ st hpre,
      sgr_param_loop_skip font hne hbad,
      sgr_param_loop_simple_eq font post _ hpost]
  simp [applyAll, List.foldl_append]

/-- Witness for C3: in `["1", "?", "31"]` the malformed `"?"` is skipped
by the term66 loop and codes 1 and 31 are both applied. -/
theorem claim_C3_witness :
    simpleTok "1" = true ∧ simpleTok "31" = true
    ∧ ("?" : String) ≠ "" ∧ parseIntOpt "?" = none
    ∧ sgr_param_loop defaultFontConfig (["1"] ++ "?" :: ["31"]) defaultStyleState
        = applyAll defaultFontConfig (["1"] ++ ["31"]) defaultStyleState :=
  ⟨by decide, by decide, by decide, by decide,
    claim_C3 defaultFontConfig defaultStyleState ["1"] ["31"] "?"
      (by decide) (by decide) (by decide) (by decide)⟩

/-- Claim C4: a 38/48 code followed by color mode 5 consumes exactly one
further sub-parameter, and followed by color mode 2 consumes exactly
three; in both cases every code after the consumed sub-parameters is
still interpreted as an ordinary SGR code, and the sub-parameters
themselves (arbitrary token strings here) are never applied as
standalone codes. -/
theorem claim_C4 (font : FontConfig) (st : StyleState) (pre post : List String)
    (ext : String) (cex : Nat) (m5 m2 i r g b : String)
    (hext : parseIntOpt ext = some cex) (hc : cex = 38 ∨ cex = 48)
    (h5 : parseIntOpt m5 = some 5) (h2 : parseIntOpt m2 = some 2)
    (hpre : ∀ s ∈ pre, simpleTok s = true) (hpost : ∀ s ∈ post, simpleTok s = true) :
    sgr_param_loop font (pre ++ ext :: m5 :: i :: post) st = applyAll font (pre ++ post) st
    ∧ sgr_param_loop font (pre ++ ext :: m2 :: r :: g :: b :: post) st
        = applyAll font (pre ++ post) st := by
  constructor
  · rw [sgr_param_loop_simple_append font pre _ st hpre,
        sgr_param_loop_ext5 font hext hc h5,
        sgr_param_loop_simple_eq font post _ hpost]
    simp [applyAll, List.foldl_append]
  · rw [sgr_param_loop_simple_append font pre _ st hpre,
        sgr_param_loop_ext2 font hext hc h2,
        sgr_param_loop_simple_eq font post _ hpost]
    simp [applyAll, List.foldl_append]

/-- Witness for C4: `["1", "38", "5", "31", "32"]` applies bold then
green (the `"31"` is consumed as a palette index, not applied), and
`["1", "38", "2", "10", "20", "30", "32"]` likewise skips the RGB triple
and still applies the trailing 32. -/
theorem claim_C4_witness :
    parseIntOpt "38" = some 38 ∧ parseIntOpt "5" = some 5 ∧ parseIntOpt "2" = some 2
    ∧ simpleTok "1" = true ∧ simpleTok "32" = true
    ∧ (sgr_param_loop defaultFontConfig (["1"] ++ "38" :: "5" :: "31" :: ["32"])
          defaultStyleState
        = applyAll defaultFontConfig (["1"] ++ ["32"]) defaultStyleState
      ∧ sgr_param_loop defaultFontConfig
          (["1"] ++ "38" :: "2" :: "10" :: "20" :: "30" :: ["32"]) defaultStyleState
        = applyAll defaultFontConfig (["1"] ++ ["32"]) defaultStyleState) :=
  ⟨by decide, by decide, by decide, by decide, by decide,
    claim_C4 defaultFontConfig defaultStyleState ["1"] ["32"] "38" 38 "5" "2" "31"
      "10" "20" "30" (by decide) (Or.inl rfl) (by decide) (by decide)
      (by decide) (by decide)⟩

/-- Claim C5: applying SGR code 0 after any fold of SGR codes over any
starting state yields the documented default style, independent of the
code sequence and of the widget font (`_reset_char_format_to_default`
overwrites the font-derived weight/italic/underline with
Normal/False/False); and an empty SGR parameter list is processed
exactly like the single code 0. -/
theorem claim_C5 :
    (∀ (font : FontConfig) (codes : List Nat) (st : StyleState),
      apply_sgr_code font 0 (codes.foldl (fun a c => apply_sgr_code font c a) st)
        = defaultStyleState)
    ∧ (∀ (font : FontConfig) (st : StyleState),
        sgr_param_loop font (sgrParts "") st = sgr_param_loop font (sgrParts "0") st) :=
  ⟨fun _ _ _ => rfl, fun _ _ => rfl⟩

/-- Claim C9: a submitted line or a programmatic `send_command` while
the process is not running writes nothing to the child and appends a
nonempty diagnostic to the display instead of being silently dropped. -/
theorem claim_C9 :
    (∀ (tid cmd : String) (ae : Bool),
      (send_command false tid cmd ae).written = none
      ∧ (send_command false tid cmd ae).diag = some (notRunningDiag tid)
      ∧ notRunningDiag tid ≠ "")
    ∧ (∀ (doc : String) (pos : Nat),
      (submitCommand false doc pos).written = none
      ∧ (submitCommand false doc pos).diag = some shellNotRunningDiag
      ∧ shellNotRunningDiag ≠ "") := by
  constructor
  · intro tid cmd ae
    refine ⟨rfl, rfl, ?_⟩
    intro h
    have hd := congrArg String.data h
    rw [notRunningDiag] at hd
    simp [String.data_append] at hd
  · intro doc pos
    exact ⟨rfl, rfl, by decide⟩

/-! ## The escape sequence tokenizer (`ansi_escape_regex` + `finditer`)

The regex (identical in term66.py and term3.py) is

  `\x1b(?: \[([\d;?]*)m | \]([012]);([^\x07\x1b]*)(?:\x07|\x1b\\)`
  `     | \[([\d;]*)([HJK]) | ([()][012AB]) | ([ENOM]) | = | > )`

Every alternative's repeated character class is disjoint from the
character that must follow it, so the greedy match never backtracks:
each alternative either matches by taking the maximal run or fails, and
the alternatives are tried in the regex's order.  `finditer` scans left
to right, emitting the text between matches verbatim. -/

/-- Characters of the SGR parameter class `[\d;?]`. -/
def isSgrParamChar (c : Char) : Bool := c.isDigit || c = ';' || c = '?'

/-- Characters of the CSI parameter class `[\d;]`. -/
def isCsiParamChar (c : Char) : Bool := c.isDigit || c = ';'

/-- Characters of the OSC payload class `[^\x07\x1b]`. -/
def isOscPayloadChar (c : Char) : Bool := !(c = '\x07') && !(c = '\x1b')

/-- One recognized escape sequence, carrying the regex's capture groups
(for OSC also which terminator closed it, so the matched span is
recoverable). -/
inductive AnsiToken where
  | sgrTok (params : String)
  | oscTok (cmd : Char) (payload : String) (bel : Bool)
  | csiTok (params : String) (letter : Char)
  | charsetTok (intro : Char) (set : Char)
  | modeTok (c : Char)
  | keypadTok (c : Char)
deriving DecidableEq

/-- One element of the decomposition of an input chunk: a literal text
run between matches, or a recognized escape sequence. -/
inductive Piece where
  | textRun (s : String)
  | tok (t : AnsiToken)
deriving DecidableEq

/-- Alternative 1, `\[([\d;?]*)m`, applied to the characters after the
escape byte. -/
def trySgr (cs : List Char) : Option (AnsiToken × List Char) :=
  match cs with
  | c :: cs1 =>
    if c = '[' then
      match cs1.dropWhile isSgrParamChar with
      | d :: r =>
        if d = 'm' then some (.sgrTok (String.mk (cs1.takeWhile isSgrParamChar)), r)
        else none
      | [] => none
    else none
  | [] => none

/-- Alternative 2, `\]([012]);([^\x07\x1b]*)(?:\x07|\x1b\\)`. -/
def tryOsc (cs : List Char) : Option (AnsiToken × List Char) :=
  match cs with
  | c1 :: c2 :: c3 :: cs1 =>
    if c1 = ']' ∧ (c2 = '0' ∨ c2 = '1' ∨ c2 = '2') ∧ c3 = ';' then
      match cs1.dropWhile isOscPayloadChar with
      | d :: r =>
        if d = '\x07' then
          some (.oscTok c2 (String.mk (cs1.takeWhile isOscPayloadChar)) true, r)
        else
          match r with
          | e :: r2 =>
            if d = '\x1b' ∧ e = '\\' then
              some (.oscTok c2 (String.mk (cs1.takeWhile isOscPayloadChar)) false, r2)
            else none
          | [] => none
      | [] => none
    else none
  | _ => none

/-- Alternative 3, `\[([\d;]*)([HJK])`. -/
def tryCsi (cs : List Char) : Option (AnsiToken × List Char) :=
  match cs with
  | c :: cs1 =>
    if c = '[' then
      match cs1.dropWhile isCsiParamChar with
      | d :: r =>
        if d = 'H' ∨ d = 'J' ∨ d = 'K' then
          some (.csiTok (String.mk (cs1.takeWhile isCsiParamChar)) d, r)
        else none
      | [] => none
    else none
  | [] => none

/-- Alternative 4, `([()][012AB])`. -/
def tryCharset (cs : List Char) : Option (AnsiToken × List Char) :=
  match cs with
  | a :: b :: r =>
    if (a = '(' ∨ a = ')') ∧ (b = '0' ∨ b = '1' ∨ b = '2' ∨ b = 'A' ∨ b = 'B') then
      some (.charsetTok a b, r)
    else none
  | _ => none

/-- Alternative 5, `([ENOM])`. -/
def tryMode (cs : List Char) : Option (AnsiToken × List Char) :=
  match cs with
  | c :: r =>
    if c = 'E' ∨ c = 'N' ∨ c = 'O' ∨ c = 'M' then some (.modeTok c, r) else none
  | [] => none

/-- Alternatives 6 and 7, `=|>`. -/
def tryKeypad (cs : List Char) : Option (AnsiToken × List Char) :=
  match cs with
  | c :: r => if c = '=' ∨ c = '>' then some (.keypadTok c, r) else none
  | [] => none

/-- Try the regex alternatives in order at an escape byte; `cs` is the
input after that byte.  Returns the token and the remaining input. -/
def tryMatchEsc (cs : List Char) : Option (AnsiToken × List Char) :=
  match trySgr cs with
  | some res => some res
  | none =>
    match tryOsc cs with
    | some res => some res
    | none =>
      match tryCsi cs with
      | some res => some res
      | none =>
        match tryCharset cs with
        | some res => some res
        | none =>
          match tryMode cs with
          | some res => some res
          | none => tryKeypad cs

/-- The characters a token matched, after the escape byte. -/
def rawTailOfToken : AnsiToken → List Char
  | .sgrTok p => '[' :: p.data ++ ['m']
  | .oscTok c p bel => ']' :: c :: ';' :: p.data ++ (if bel then ['\x07'] else ['\x1b', '\\'])
  | .csiTok p l => '[' :: p.data ++ [l]
  | .charsetTok a b => [a, b]
  | .modeTok c => [c]
  | .keypadTok c => [c]

/-- The full character span a piece stands for. -/
def pieceRaw : Piece → List Char
  | .textRun s => s.data
  | .tok t => '\x1b' :: rawTailOfToken t

/-- Emit the pending text accumulator (held reversed) as a text run. -/
def flushAcc (acc : List Char) : List Piece :=
  if acc = [] then [] else [.textRun (String.mk acc.reverse)]

/-- Fuel-indexed scanner: walk the input; at each escape byte try the
regex, emitting the gap text and the token on a match, and treating the
escape byte as ordinary text otherwise.  Every step consumes at least
one character, so fuel equal to the input length computes `finditer`'s
decomposition. -/
def scanFuel : Nat → List Char → List Char → List Piece
  | 0, acc, _ => flushAcc acc
  | fuel + 1, acc, input =>
    match input with
    | [] => flushAcc acc
    | c :: cs =>
      if c = '\x1b' then
        match tryMatchEsc cs with
        | some (t, r) => flushAcc acc ++ .tok t :: scanFuel fuel [] r
        | none => scanFuel fuel (c :: acc) cs
      else scanFuel fuel (c :: acc) cs

/-- The decomposition of an input chunk into text runs and escape
sequence tokens, as produced by iterating `ansi_escape_regex.finditer`
in `append_ansi_text`. -/
def tokenizeChars (l : List Char) : List Piece := scanFuel l.length [] l

/-- `tokenizeChars` on a string chunk. -/
def tokenize (s : String) : List Piece := tokenizeChars s.data

/-- The `titleChanged.emit` calls `append_ansi_text` makes for a chunk:
one per OSC token whose payload is truthy (nonempty) and whose command
digit is 0, 1 or 2 (`elif osc_t and osc_c: if osc_t in ('0','1','2')`). -/
def titlesOfPieces (ps : List Piece) : List String :=
  ps.filterMap fun p =>
    match p with
    | .tok (.oscTok cmd payload _) =>
      if payload = "" then none
      else if cmd = '0' ∨ cmd = '1' ∨ cmd = '2' then some payload else none
    | _ => none

/-- The literal text runs `append_ansi_text` inserts for a chunk. -/
def textRunsOfPieces (ps : List Piece) : List String :=
  ps.filterMap fun p =>
    match p with
    | .textRun s => some s
    | _ => none

/-- Titles emitted while appending a chunk. -/
def emittedTitles (s : String) : List String := titlesOfPieces (tokenize s)

/-- Text runs inserted while appending a chunk. -/
def textRuns (s : String) : List String := textRunsOfPieces (tokenize s)

/-! ## Tokenizer lemmas: every chunk is exactly covered -/

theorem trySgr_raw {cs : List Char} {t : AnsiToken} {r : List Char}
    (h : trySgr cs = some (t, r)) : rawTailOfToken t ++ r = cs := by
  match cs with
  | [] => simp [trySgr] at h
  | c :: cs1 =>
    simp only [trySgr] at h
    by_cases hc : c = '['
    · rw [if_pos hc] at h
      subst hc
      cases hd : cs1.dropWhile isSgrParamChar with
      | nil => rw [hd] at h; exact absurd h (by simp)
      | cons d r2 =>
        rw [hd] at h
        dsimp only at h
        by_cases hm : d = 'm'
        · rw [if_pos hm] at h
          subst hm
          simp only [Option.some.injEq, Prod.mk.injEq] at h
          obtain ⟨ht, hr⟩ := h
          subst ht; subst hr
          have hw := List.takeWhile_append_dropWhile (p := isSgrParamChar) (l := cs1)
          rw [hd] at hw
          simp only [rawTailOfToken, List.cons_append, List.append_assoc]
          rw [List.cons.injEq]
          exact ⟨rfl, by simpa using hw⟩
        · rw [if_neg hm] at h; exact absurd h (by simp)
    · rw [if_neg hc] at h; exact absurd h (by simp)

theorem tryOsc_raw {cs : List Char} {t : AnsiToken} {r : List Char}
    (h : tryOsc cs = some (t, r)) : rawTailOfToken t ++ r = cs := by
  match cs with
  | [] => simp [tryOsc] at h
  | [c1] => simp [tryOsc] at h
  | [c1, c2] => simp [tryOsc] at h
  | c1 :: c2 :: c3 :: cs1 =>
    simp only [tryOsc] at h
    by_cases hg : c1 = ']' ∧ (c2 = '0' ∨ c2 = '1' ∨ c2 = '2') ∧ c3 = ';'
    · rw [if_pos hg] at h
      obtain ⟨hg1, _, hg3⟩ := hg
      subst hg1; subst hg3
      have hw := List.takeWhile_append_dropWhile (p := isOscPayloadChar) (l := cs1)
      cases hd : cs1.dropWhile isOscPayloadChar with
      | nil => rw [hd] at h; exact absurd h (by simp)
      | cons d r2 =>
        rw [hd] at h
        dsimp only at h
        rw [hd] at hw
        by_cases hbel : d = '\x07'
        · rw [if_pos hbel] at h
          subst hbel
          simp only [Option.some.injEq, Prod.mk.injEq] at h
          obtain ⟨ht, hr⟩ := h
          subst ht; subst hr
          simp only [rawTailOfToken, if_pos rfl, List.cons_append, List.append_assoc]
          rw [List.cons.injEq, List.cons.injEq, List.cons.injEq]
          exact ⟨rfl, rfl, rfl, by simpa using hw⟩
        · rw [if_neg hbel] at h
          cases r2 with
          | nil => exact absurd h (by simp)
          | cons e r3 =>
            dsimp only at h
            by_cases hesc : d = '\x1b' ∧ e = '\\'
            · rw [if_pos hesc] at h
              obtain ⟨he1, he2⟩ := hesc
              subst he1; subst he2
              simp only [Option.some.injEq, Prod.mk.injEq] at h
              obtain ⟨ht, hr⟩ := h
              subst ht; subst hr
              simp only [rawTailOfToken, if_neg (Bool.false_ne_true), List.cons_append,
                List.append_assoc]
              rw [List.cons.injEq, List.cons.injEq, List.cons.injEq]
              refine ⟨rfl, rfl, rfl, ?_⟩
              simpa using hw
            · rw [if_neg hesc] at h; exact absurd h (by simp)
    · rw [if_neg hg] at h; exact absurd h (by simp)

theorem tryCsi_raw {cs : List Char} {t : AnsiToken} {r : List Char}
    (h : tryCsi cs = some (t, r)) : rawTailOfToken t ++ r = cs := by
  match cs with
  | [] => simp [tryCsi] at h
  | c :: cs1 =>
    simp only [tryCsi] at h
    by_cases hc : c = '['
    · rw [if_pos hc] at h
      subst hc
      cases hd : cs1.dropWhile isCsiParamChar with
      | nil => rw [hd] at h; exact absurd h (by simp)
      | cons d r2 =>
        rw [hd] at h
        dsimp only at h
        by_cases hm : d = 'H' ∨ d = 'J' ∨ d = 'K'
        · rw [if_pos hm] at h
          simp only [Option.some.injEq, Prod.mk.injEq] at h
          obtain ⟨ht, hr⟩ := h
          subst ht; subst hr
          have hw := List.takeWhile_append_dropWhile (p := isCsiParamChar) (l := cs1)
          rw [hd] at hw
          simp only [rawTailOfToken, List.cons_append, List.append_assoc]
          rw [List.cons.injEq]
          exact ⟨rfl, by simpa using hw⟩
        · rw [if_neg hm] at h; exact absurd h (by simp)
    · rw [if_neg hc] at h; exact absurd h (by simp)

theorem tryCharset_raw {cs : List Char} {t : AnsiToken} {r : List Char}
    (h : tryCharset cs = some (t, r)) : rawTailOfToken t ++ r = cs := by
  match cs with
  | [] => simp [tryCharset] at h
  | [a] => simp [tryCharset] at h
  | a :: b :: r2 =>
    simp only [tryCharset] at h
    by_cases hg : (a = '(' ∨ a = ')') ∧ (b = '0' ∨ b = '1' ∨ b = '2' ∨ b = 'A' ∨ b = 'B')
    · rw [if_pos hg] at h
      simp only [Option.some.injEq, Prod.mk.injEq] at h
      obtain ⟨ht, hr⟩ := h
      subst ht; subst hr
      rfl
    · rw [if_neg hg] at h; exact absurd h (by simp)

theorem tryMode_raw {cs : List Char} {t : AnsiToken} {r : List Char}
    (h : tryMode cs = some (t, r)) : rawTailOfToken t ++ r = cs := by
  match cs with
  | [] => simp [tryMode] at h
  | c :: r2 =>
    simp only [tryMode] at h
    by_cases hg : c = 'E' ∨ c = 'N' ∨ c = 'O' ∨ c = 'M'
    · rw [if_pos hg] at h
      simp only [Option.some.injEq, Prod.mk.injEq] at h
      obtain ⟨ht, hr⟩ := h
      subst ht; subst hr
      rfl
    · rw [if_neg hg] at h; exact absurd h (by simp)

theorem tryKeypad_raw {cs : List Char} {t : AnsiToken} {r : List Char}
    (h : tryKeypad cs = some (t, r)) : rawTailOfToken t ++ r = cs := by
  match cs with
  | [] => simp [tryKeypad] at h
  | c :: r2 =>
    simp only [tryKeypad] at h
    by_cases hg : c = '=' ∨ c = '>'
    · rw [if_pos hg] at h
      simp only [Option.some.injEq, Prod.mk.injEq] at h
      obtain ⟨ht, hr⟩ := h
      subst ht; subst hr
      rfl
    · rw [if_neg hg] at h; exact absurd h (by simp)

/-- Whatever alternative matched, the token's raw characters followed by
the returned remainder reconstruct the input after the escape byte. -/
theorem tryMatchEsc_raw {cs : List Char} {t : AnsiToken} {r : List Char}
    (h : tryMatchEsc cs = some (t, r)) : rawTailOfToken t ++ r = cs := by
  unfold tryMatchEsc at h
  cases h1 : trySgr cs with
  | some res =>
    rw [h1] at h; injection h with h2; subst h2; exact trySgr_raw h1
  | none =>
    rw [h1] at h
    cases h2 : tryOsc cs with
    | some res =>
      rw [h2] at h; injection h with h3; subst h3; exact tryOsc_raw h2
    | none =>
      rw [h2] at h
      cases h3 : tryCsi cs with
      | some res =>
        rw [h3] at h; injection h with h4; subst h4; exact tryCsi_raw h3
      | none =>
        rw [h3] at h
        cases h4 : tryCharset cs with
        | some res =>
          rw [h4] at h; injection h with h5; subst h5; exact tryCharset_raw h4
        | none =>
          rw [h4] at h
          cases h5 : tryMode cs with
          | some res =>
            rw [h5] at h; injection h with h6; subst h6; exact tryMode_raw h5
          | none =>
            rw [h5] at h; exact tryKeypad_raw h

/-- A successful match consumes at least the token, so the remainder is
no longer than the input. -/
theorem tryMatchEsc_length {cs : List Char} {t : AnsiToken} {r : List Char}
    (h : tryMatchEsc cs = some (t, r)) : r.length ≤ cs.length := by
  have hr := tryMatchEsc_raw h
  calc r.length ≤ (rawTailOfToken t ++ r).length := by simp
  _ = cs.length := by rw [hr]

theorem scanFuel_esc_some {n : Nat} {acc cs : List Char} {t : AnsiToken} {r : List Char}
    (hm : tryMatchEsc cs = some (t, r)) :
    scanFuel (n + 1) acc ('\x1b' :: cs) = flushAcc acc ++ .tok t :: scanFuel n [] r := by
  simp [scanFuel, hm]

theorem scanFuel_esc_none {n : Nat} {acc cs : List Char}
    (hm : tryMatchEsc cs = none) :
    scanFuel (n + 1) acc ('\x1b' :: cs) = scanFuel n ('\x1b' :: acc) cs := by
  simp [scanFuel, hm]

theorem scanFuel_text {n : Nat} {acc cs : List Char} {c : Char} (hc : c ≠ '\x1b') :
    scanFuel (n + 1) acc (c :: cs) = scanFuel n (c :: acc) cs := by
  simp [scanFuel, hc]

theorem flushAcc_raw (acc : List Char) :
    ((flushAcc acc).map pieceRaw).flatten = acc.reverse := by
  by_cases h : acc = [] <;> simp [flushAcc, h, pieceRaw]

/-- The scanner loses and invents nothing: the pieces' raw spans
concatenate back to the pending accumulator plus the input. -/
theorem scanFuel_raw :
    ∀ (n : Nat) (acc input : List Char), input.length ≤ n →
      ((scanFuel n acc input).map pieceRaw).flatten = acc.reverse ++ input := by
  intro n
  induction n with
  | zero =>
    intro acc input h
    have : input = [] := List.eq_nil_of_length_eq_zero (Nat.le_zero.mp h)
    subst this
    simp [scanFuel, flushAcc_raw]
  | succ n ih =>
    intro acc input h
    cases input with
    | nil => simp [scanFuel, flushAcc_raw]
    | cons c cs =>
      have hcs : cs.length ≤ n := by simp at h; omega
      simp only [scanFuel]
      by_cases hc : c = '\x1b'
      · rw [if_pos hc]
        cases hm : tryMatchEsc cs with
        | some tr =>
          obtain ⟨t, r⟩ := tr
          have hraw := tryMatchEsc_raw hm
          have hlen : r.length ≤ n := Nat.le_trans (tryMatchEsc_length hm) hcs
          simp only [List.map_append, List.flatten_append, List.map_cons, List.flatten_cons,
            flushAcc_raw, pieceRaw, ih [] r hlen]
          subst hc
          simp [← hraw]
        | none =>
          rw [ih (c :: acc) cs hcs]
          simp
      · rw [if_neg hc]
        rw [ih (c :: acc) cs hcs]
        simp

/-- Prepend literal characters to a piece list, merging into a leading
text run when there is one. -/
def prependChars (s : List Char) (ps : List Piece) : List Piece :=
  if s = [] then ps
  else
    match ps with
    | .textRun t :: rest => .textRun (String.mk (s ++ t.data)) :: rest
    | other => .textRun (String.mk s) :: other

theorem prependChars_append (xs ys : List Char) (ps : List Piece) :
    prependChars (xs ++ ys) ps = prependChars xs (prependChars ys ps) := by
  by_cases hy : ys = []
  · subst hy; simp [prependChars]
  · by_cases hx : xs = []
    · subst hx; simp [prependChars]
    · have hxy : xs ++ ys ≠ [] := by simp [hx]
      cases ps with
      | nil => simp [prependChars, hx, hy, hxy]
      | cons p rest =>
        cases p with
        | textRun t => simp [prependChars, hx, hy, hxy]
        | tok t => simp [prependChars, hx, hy, hxy]

/-- The pending accumulator only contributes a prefix of text: scanning
with accumulator `acc` is scanning afresh with `acc.reverse`
prepended. -/
theorem scanFuel_acc :
    ∀ (n : Nat) (acc input : List Char), input.length ≤ n →
      scanFuel n acc input = prependChars acc.reverse (scanFuel n [] input) := by
  intro n
  induction n with
  | zero =>
    intro acc input h
    have : input = [] := List.eq_nil_of_length_eq_zero (Nat.le_zero.mp h)
    subst this
    by_cases ha : acc = [] <;>
      simp [scanFuel, flushAcc, prependChars, ha]
  | succ n ih =>
    intro acc input h
    cases input with
    | nil =>
      by_cases ha : acc = [] <;>
        simp [scanFuel, flushAcc, prependChars, ha]
    | cons c cs =>
      have hcs : cs.length ≤ n := by simp at h; omega
      by_cases hc : c = '\x1b'
      · subst hc
        cases hm : tryMatchEsc cs with
        | some tr =>
          obtain ⟨t, r⟩ := tr
          rw [scanFuel_esc_some hm, scanFuel_esc_some hm]
          by_cases ha : acc = []
          · simp [flushAcc, prependChars, ha]
          · have har : acc.reverse ≠ [] := by simpa using ha
            simp [flushAcc, prependChars, ha, har]
        | none =>
          rw [scanFuel_esc_none hm, scanFuel_esc_none hm,
              ih ('\x1b' :: acc) cs hcs, ih ['\x1b'] cs hcs,
              List.reverse_cons, prependChars_append]
          simp
      · rw [scanFuel_text hc, scanFuel_text hc,
            ih (c :: acc) cs hcs, ih [c] cs hcs,
            List.reverse_cons, prependChars_append]
        simp

theorem scanFuel_nil_input (n : Nat) (acc : List Char) :
    scanFuel n acc [] = flushAcc acc := by
  cases n <;> rfl

/-- The private-mode sequence `ESC [ ? 2 5 h` (hide cursor), which the
regex recognizes under none of its alternatives: SGR requires a final
`m`, CSI's parameter class excludes `?`, and the rest need other
introducer characters. -/
def corruptSeq : List Char := ['\x1b', '[', '?', '2', '5', 'h']

theorem corrupt_no_match (good : List Char) :
    tryMatchEsc ('[' :: '?' :: '2' :: '5' :: 'h' :: good) = none := by
  have hq : isSgrParamChar '?' = true := by decide
  have h2 : isSgrParamChar '2' = true := by decide
  have h5 : isSgrParamChar '5' = true := by decide
  have hh : isSgrParamChar 'h' = false := by decide
  have hcq : isCsiParamChar '?' = false := by decide
  have hsgr : trySgr ('[' :: '?' :: '2' :: '5' :: 'h' :: good) = none := by
    simp [trySgr, List.dropWhile_cons, hq, h2, h5, hh]
  have hosc : tryOsc ('[' :: '?' :: '2' :: '5' :: 'h' :: good) = none := by
    simp [tryOsc]
  have hcsi : tryCsi ('[' :: '?' :: '2' :: '5' :: 'h' :: good) = none := by
    simp [tryCsi, List.dropWhile_cons, hcq]
  have hcrs : tryCharset ('[' :: '?' :: '2' :: '5' :: 'h' :: good) = none := by
    simp [tryCharset]
  have hmod : tryMode ('[' :: '?' :: '2' :: '5' :: 'h' :: good) = none := by
    simp [tryMode]
  have hkp : tryKeypad ('[' :: '?' :: '2' :: '5' :: 'h' :: good) = none := by
    simp [tryKeypad]
  simp [tryMatchEsc, hsgr, hosc, hcsi, hcrs, hmod, hkp]

/-- An escape introducer that matches no alternative is treated as
ordinary text: the scan continues with the escape byte prepended to the
decomposition of the rest. -/
theorem tokenize_unmatched_esc {cs : List Char} (hm : tryMatchEsc cs = none) :
    tokenizeChars ('\x1b' :: cs) = prependChars ['\x1b'] (tokenizeChars cs) := by
  show scanFuel ('\x1b' :: cs).length [] ('\x1b' :: cs) = _
  rw [List.length_cons, scanFuel_esc_none hm,
    scanFuel_acc cs.length ['\x1b'] cs (Nat.le_refl _)]
  rfl

/-- Resynchronization: the corrupt sequence contributes only literal
text, and everything after it is decomposed exactly as it would be
alone. -/
theorem tokenize_resync (good : List Char) :
    tokenizeChars (corruptSeq ++ good) = prependChars corruptSeq (tokenizeChars good) := by
  show scanFuel (corruptSeq ++ good).length [] (corruptSeq ++ good) = _
  have hlen : (corruptSeq ++ good).length = good.length + 6 := by
    simp [corruptSeq]
  rw [hlen,
    show (corruptSeq ++ good) = '\x1b' :: '[' :: '?' :: '2' :: '5' :: 'h' :: good from rfl,
    scanFuel_esc_none (corrupt_no_match good),
    scanFuel_text (by decide), scanFuel_text (by decide), scanFuel_text (by decide),
    scanFuel_text (by decide), scanFuel_text (by decide),
    scanFuel_acc good.length _ good (Nat.le_refl _)]
  rfl

theorem takeWhile_osc_payload (p : List Char) (rest : List Char)
    (hp : ∀ c ∈ p, isOscPayloadChar c = true) :
    (p ++ '\x07' :: rest).takeWhile isOscPayloadChar = p
    ∧ (p ++ '\x07' :: rest).dropWhile isOscPayloadChar = '\x07' :: rest := by
  induction p with
  | nil =>
    constructor <;>
      simp [List.takeWhile_cons, List.dropWhile_cons,
        (by decide : isOscPayloadChar '\x07' = false)]
  | cons a p ih =>
    have ha := hp a (List.mem_cons_self a p)
    obtain ⟨iht, ihd⟩ := ih (fun c hc => hp c (List.mem_cons_of_mem a hc))
    constructor
    · simp [List.takeWhile_cons, ha, iht]
    · simp [List.dropWhile_cons, ha, ihd]

/-- A BEL-terminated OSC title sequence with in-class payload is
recognized as exactly one OSC token. -/
theorem tokenize_osc (cmd : Char) (payload : List Char)
    (hcmd : cmd = '0' ∨ cmd = '1' ∨ cmd = '2')
    (hp : ∀ c ∈ payload, isOscPayloadChar c = true) :
    tokenizeChars ('\x1b' :: ']' :: cmd :: ';' :: (payload ++ ['\x07']))
      = [.tok (.oscTok cmd (String.mk payload) true)] := by
  obtain ⟨ht, hd⟩ := takeWhile_osc_payload payload [] hp
  have hosc : tryOsc (']' :: cmd :: ';' :: (payload ++ ['\x07']))
      = some (.oscTok cmd (String.mk payload) true, []) := by
    simp only [tryOsc]
    rw [if_pos ⟨trivial, hcmd, trivial⟩, hd]
    dsimp only
    rw [if_pos rfl, ht]
  have hsgr : trySgr (']' :: cmd :: ';' :: (payload ++ ['\x07'])) = none := by
    simp [trySgr]
  have hmatch : tryMatchEsc (']' :: cmd :: ';' :: (payload ++ ['\x07']))
      = some (.oscTok cmd (String.mk payload) true, []) := by
    simp [tryMatchEsc, hsgr, hosc]
  show scanFuel ('\x1b' :: ']' :: cmd :: ';' :: (payload ++ ['\x07'])).length []
      ('\x1b' :: ']' :: cmd :: ';' :: (payload ++ ['\x07'])) = _
  rw [List.length_cons, scanFuel_esc_some hmatch, scanFuel_nil_input]
  rfl

/-! ## Input line discipline: deletion keys (term66.py `keyPressEvent`) -/

/-- The two deletion keys the guard distinguishes. -/
inductive DelKey where
  | backspace
  | delete
deriving DecidableEq

/-- The display buffer as the deletion guard sees it: the rendered text
and `input_start_pos`. -/
structure TermBuf where
  text : List Char
  input_start_pos : Nat
deriving DecidableEq

/-- Whether `keyPressEvent` forwards a deletion key to the underlying
`QTextEdit` (`super().keyPressEvent(ev)`): backspace needs a selection
or a cursor strictly past `input_start_pos`, delete needs a selection or
a cursor at or past it. -/
def deletionForwarded (hasSel : Bool) (pos boundary : Nat) : DelKey → Bool
  | .backspace => hasSel || decide (boundary < pos)
  | .delete => hasSel || decide (boundary ≤ pos)

/-- One deletion-key event with no active selection.  With no selection
`keyPressEvent` first moves the cursor to the end of the document, so
the guard sees `pos = text.length`; a forwarded backspace then deletes
the last character, and a forwarded delete is a no-op because no
character follows the end-of-document cursor. -/
def delStep (st : TermBuf) (k : DelKey) : TermBuf :=
  match k with
  | .backspace =>
    if deletionForwarded false st.text.length st.input_start_pos .backspace then
      { st with text := st.text.dropLast }
    else st
  | .delete => st

/-! ## The display append (`append_ansi_text` of term66.py) -/

/-- The widget state `append_ansi_text` touches: document text, cursor
position, `input_start_pos`, and `current_format`. -/
structure WidgetState where
  text : List Char
  cursorPos : Nat
  input_start_pos : Nat
  fmt : StyleState
deriving DecidableEq

/-- `insertPlainText`: insert at the cursor and advance it. -/
def insertPlainText (st : WidgetState) (s : List Char) : WidgetState :=
  { st with
    text := st.text.take st.cursorPos ++ s ++ st.text.drop st.cursorPos,
    cursorPos := st.cursorPos + s.length }

/-- `QTextEdit.clear()`: empty the document and put the cursor at 0. -/
def clearWidget (st : WidgetState) : WidgetState :=
  { st with text := [], cursorPos := 0 }

/-- The per-match body of `append_ansi_text`'s loop: text runs are
inserted, SGR groups run the parameter loop over `current_format`, OSC
tokens only emit a title, CSI `J` with parameter `2` clears the screen
and resets the format, and everything else is a no-op. -/
def applyPiece (font : FontConfig) (st : WidgetState) (p : Piece) : WidgetState :=
  match p with
  | .textRun s => insertPlainText st s.data
  | .tok (.sgrTok params) => { st with fmt := sgr_param_loop font (sgrParts params) st.fmt }
  | .tok (.oscTok _ _ _) => st
  | .tok (.csiTok params letter) =>
    if letter = 'J' then
      if params = "2" then
        let st2 := clearWidget st
        { st2 with fmt := reset_char_format_to_default font st2.fmt }
      else st
    else st
  | .tok (.charsetTok _ _) => st
  | .tok (.modeTok _) => st
  | .tok (.keypadTok _) => st

/-- `TerminalWidget.append_ansi_text` of term66.py: move the cursor to
the end, process the chunk's decomposition in order, move the cursor to
the end again, and set `input_start_pos` to the cursor position. -/
def append_ansi_text (font : FontConfig) (st : WidgetState) (chunk : String) : WidgetState :=
  let st1 := { st with cursorPos := st.text.length }
  let st2 := (tokenize chunk).foldl (applyPiece font) st1
  let st3 := { st2 with cursorPos := st2.text.length }
  { st3 with input_start_pos := st3.cursorPos }

/-! ## Claims about the tokenizer, deletion guard and display append -/

/-- Claim C6, counterexample: an OSC title sequence with empty payload
emits no `TitleChanged` at all — the guard `osc_t and osc_c` is falsy on
the empty payload string — contradicting the claim's "including when the
payload is empty". -/
theorem claim_C6_counterexample :
    emittedTitles "\x1b]0;\x07" = [] ∧ ([] : List String) ≠ [""] :=
  ⟨by decide, by decide⟩

/-- Claim C6 (amended): an OSC token with command number in {0,1,2}
emits `TitleChanged` carrying the raw payload whenever that payload is
nonempty; an empty payload emits nothing; in particular
`"\x1b]0;My Title\x07"` yields exactly `TitleChanged("My Title")` and no
text run. -/
theorem claim_C6 :
    (∀ (cmd : Char) (payload : List Char),
      (cmd = '0' ∨ cmd = '1' ∨ cmd = '2') →
      (∀ c ∈ payload, isOscPayloadChar c = true) →
      payload ≠ [] →
      emittedTitles (String.mk ('\x1b' :: ']' :: cmd :: ';' :: (payload ++ ['\x07'])))
          = [String.mk payload]
      ∧ textRuns (String.mk ('\x1b' :: ']' :: cmd :: ';' :: (payload ++ ['\x07']))) = [])
    ∧ (∀ (cmd : Char), (cmd = '0' ∨ cmd = '1' ∨ cmd = '2') →
        emittedTitles (String.mk ('\x1b' :: ']' :: cmd :: ';' :: ['\x07'])) = [])
    ∧ emittedTitles "\x1b]0;My Title\x07" = ["My Title"]
    ∧ textRuns "\x1b]0;My Title\x07" = [] := by
  refine ⟨?_, ?_, by decide, by decide⟩
  · intro cmd payload hcmd hp hne
    have htok := tokenize_osc cmd payload hcmd hp
    have hmkne : String.mk payload ≠ "" := fun h => hne (congrArg String.data h)
    constructor
    · simp only [emittedTitles, tokenize]
      rw [htok]
      simp [titlesOfPieces, hmkne, hcmd]
    · simp only [textRuns, tokenize]
      rw [htok]
      simp [textRunsOfPieces]
  · intro cmd hcmd
    have htok := tokenize_osc cmd [] hcmd (by simp)
    simp only [List.nil_append] at htok
    simp only [emittedTitles, tokenize]
    rw [htok]
    simp [titlesOfPieces]

/-- Witness for C6: command `'1'` with payload `"Hi"`. -/
theorem claim_C6_witness :
    emittedTitles (String.mk ('\x1b' :: ']' :: '1' :: ';' :: ("Hi".data ++ ['\x07'])))
        = [String.mk "Hi".data]
    ∧ textRuns (String.mk ('\x1b' :: ']' :: '1' :: ';' :: ("Hi".data ++ ['\x07']))) = [] :=
  claim_C6.1 '1' "Hi".data (Or.inr (Or.inl rfl)) (by decide) (by decide)

/-- Claim C7: any sequence of deletion-key events with no active
selection leaves `input_start_pos` unchanged and the text strictly
before it byte-for-byte intact, and a deletion key is only forwarded to
the text buffer when a selection exists or the edit point is at or after
`input_start_pos`. -/
theorem claim_C7 :
    (∀ (ks : List DelKey) (st : TermBuf),
      (ks.foldl delStep st).input_start_pos = st.input_start_pos
      ∧ (ks.foldl delStep st).text.take st.input_start_pos
          = st.text.take st.input_start_pos)
    ∧ (∀ (hasSel : Bool) (pos boundary : Nat) (k : DelKey),
        deletionForwarded hasSel pos boundary k = true →
        hasSel = true ∨ boundary ≤ pos) := by
  constructor
  · have hstep : ∀ (st : TermBuf) (k : DelKey),
        (delStep st k).input_start_pos = st.input_start_pos
        ∧ (delStep st k).text.take st.input_start_pos
            = st.text.take st.input_start_pos := by
      intro st k
      cases k with
      | delete => exact ⟨rfl, rfl⟩
      | backspace =>
        by_cases hb : st.input_start_pos < st.text.length
        · have hfwd : deletionForwarded false st.text.length st.input_start_pos .backspace
              = true := by
            simp [deletionForwarded, hb]
          refine ⟨by simp [delStep, hfwd], ?_⟩
          simp only [delStep, hfwd, if_pos]
          rw [List.dropLast_eq_take, List.take_take]
          congr 1
          omega
        · have hfwd : deletionForwarded false st.text.length st.input_start_pos .backspace
              = false := by
            simp [deletionForwarded]
            omega
          exact ⟨by simp [delStep, hfwd], by simp [delStep, hfwd]⟩
    intro ks
    induction ks with
    | nil => intro st; exact ⟨rfl, rfl⟩
    | cons k ks ih =>
      intro st
      obtain ⟨hb, ht⟩ := hstep st k
      obtain ⟨ihb, iht⟩ := ih (delStep st k)
      refine ⟨by rw [List.foldl_cons, ihb, hb], ?_⟩
      rw [List.foldl_cons]
      rw [hb] at iht
      rw [iht, ht]
  · intro hasSel pos boundary k hfwd
    cases k with
    | backspace =>
      simp only [deletionForwarded, Bool.or_eq_true, decide_eq_true_eq] at hfwd
      rcases hfwd with h | h
      · exact Or.inl h
      · exact Or.inr (Nat.le_of_lt h)
    | delete =>
      simp only [deletionForwarded, Bool.or_eq_true, decide_eq_true_eq] at hfwd
      rcases hfwd with h | h
      · exact Or.inl h
      · exact Or.inr h

/-- Witness for C7: with no selection, a cursor at position 2 and
boundary 1, backspace is forwarded, and the guard indeed implies the
edit point is at or after the boundary. -/
theorem claim_C7_witness :
    deletionForwarded false 2 1 .backspace = true ∧ (false = true ∨ 1 ≤ 2) :=
  ⟨by decide, claim_C7.2 false 2 1 .backspace (by decide)⟩

/-- Claim C8: the tokenizer is total and lossless (the pieces of any
chunk concatenate back to exactly that chunk, so no input ever fails to
parse); an escape introducer matching no known form is emitted as
ordinary text together with the following characters; after the corrupt
sequence `ESC[?25h` every following chunk is decomposed exactly as it
would be on its own, so correctly-formed sequences after it are still
recognized — concretely, `"\x1b[?25h\x1b[1mA"` yields the corrupt bytes
as a text run followed by the recognized SGR sequence. -/
theorem claim_C8 :
    (∀ (l : List Char), ((tokenizeChars l).map pieceRaw).flatten = l)
    ∧ (∀ (cs : List Char), tryMatchEsc cs = none →
        tokenizeChars ('\x1b' :: cs) = prependChars ['\x1b'] (tokenizeChars cs))
    ∧ (∀ (good : List Char),
        tokenizeChars (corruptSeq ++ good) = prependChars corruptSeq (tokenizeChars good))
    ∧ tokenize "\x1b[?25h\x1b[1mA"
        = [.textRun "\x1b[?25h", .tok (.sgrTok "1"), .textRun "A"] := by
  refine ⟨?_, ?_, tokenize_resync, by decide⟩
  · intro l
    simpa using scanFuel_raw l.length [] l (Nat.le_refl _)
  · intro cs hm
    exact tokenize_unmatched_esc hm

/-- Witness for C8: the unmatched introducer of `ESC[?25h` becomes
literal text prepended to the decomposition of the rest. -/
theorem claim_C8_witness :
    tryMatchEsc "[?25h".data = none
    ∧ tokenizeChars ('\x1b' :: "[?25h".data)
        = prependChars ['\x1b'] (tokenizeChars "[?25h".data) :=
  ⟨by decide, claim_C8.2.1 "[?25h".data (by decide)⟩

/-- Claim C10: after `append_ansi_text` processes any chunk from any
widget state, `input_start_pos` equals the length of the rendered text
(the cursor is moved to the end and the boundary set to its position),
so the not-yet-submitted region is empty: everything on display,
including input typed before the output arrived, is committed history. -/
theorem claim_C10 :
    ∀ (font : FontConfig) (st : WidgetState) (chunk : String),
      (append_ansi_text font st chunk).input_start_pos
          = (append_ansi_text font st chunk).text.length
      ∧ (append_ansi_text font st chunk).text.drop
          (append_ansi_text font st chunk).input_start_pos = [] := by
  intro font st chunk
  exact ⟨rfl, List.drop_length _⟩
